import Mathlib

/-!
# Verification of the sharded ANN vector index core

Shallow embedding of the retrieval core of the `mini_perplexity` repository:

* `services/insert_index/shards.py` (`create_shards`),
* `services/insert_index/sampling.py` (`sample_embeddings`),
* `services/insert_index/store_blob.py` (`ensure_centroids_blob`,
  `ensure_root_metadata_blob`) together with the publish sequence of
  `services/insert_index/server.py` (`create_hnsw`),
* `services/retriever/retrieval.py` (`RetrievalEngine.find_nearest_shards`,
  `RetrievalEngine.search_shard`, `RetrievalEngine.search`),
* `services/retriever/blob_storage.py` (`download_shard_artifacts`),
* `services/retriever/cache_manager.py` (`cleanup_cache`).

Modelling conventions:

* Machine floats are modelled as rationals (`ℚ`).
* `np.linalg.norm` based distances are modelled by the *squared* L2 distance:
  the square root is strictly monotone, so every `argmin` / `argsort`
  comparison made by the source is unchanged, and no raw distance value
  produced by numpy is otherwise observable in the verified claims.
* `np.argmin` returns the first occurrence of the minimum (numpy documents
  this); `argminIdx` below does the same.
* `np.argsort` (default `kind='quicksort'`, which numpy documents as *not*
  stable) is modelled by its documented contract `npArgsortContract`: the
  output is a permutation of the index range along which the distances are
  non-decreasing, with the relative order of equal distances unspecified.
  The executable model `argsortQ` is one admissible refinement of that
  contract (the stable, `(distance, index)`-lexicographic one), used where
  an executable routing function is needed; properties that depend on the
  tie order are settled against the contract, not against the refinement.
* Python `list.sort` (timsort) is a stable sort; any stable sort computes the
  same list, so it is modelled with `List.insertionSort` over the
  corresponding non-strict key relation.
* The hnswlib index is opaque binary state; it is modelled as an abstract
  element count plus a query oracle `knn : query → k → Except error results`
  (hnswlib raises when asked for more neighbours than the index holds, hence
  the `Except`).
* File systems and blob storage are modelled by presence flags per artifact;
  the contents of a locally cached artifact coincide with the durable
  contents (the cache is a copy of durable storage, which is the only writer
  on the query path).
-/

/-- Squared L2 distance between two vectors, `Σ (aᵢ - bᵢ)²`.
Models the comparisons made through `np.linalg.norm(a - b)`: the square
root is strictly monotone, so all `argmin`/`argsort` observations agree. -/
def sqDist (a b : List ℚ) : ℚ :=
  (List.zipWith (fun x y => (x - y) ^ 2) a b).sum

/-- Minimum value of a list of rationals (`0` for the empty list, which the
source never queries). -/
def listMin : List ℚ → ℚ
  | [] => 0
  | [x] => x
  | x :: y :: ys => min x (listMin (y :: ys))

/-- Index of the first occurrence of the minimum of a list, as computed by
`np.argmin` (numpy returns the first occurrence on ties). -/
def argminIdx : List ℚ → Nat
  | [] => 0
  | [_] => 0
  | x :: y :: ys => if x ≤ listMin (y :: ys) then 0 else argminIdx (y :: ys) + 1

/-- `True` iff `np.asarray` of this list of rows produces a 2-D array:
the list is non-empty and all rows have equal length (a ragged list becomes
a 1-D object array, an empty list a 1-D empty array). -/
def is2D (m : List (List ℚ)) : Bool :=
  !m.isEmpty && m.all (fun r => r.length = (m.headD []).length)

/-- Zero-padded three-digit rendering of a shard number, as in the Python
format string applied to the centroid index. -/
def pad3 (n : Nat) : String :=
  if n < 10 then "00" ++ toString n
  else if n < 100 then "0" ++ toString n
  else toString n

/-- One embedding record flowing into a build
(`services/insert_index/schema.py`, `EmbeddingChunk`). -/
structure EmbeddingChunk where
  chunk : String
  chunk_id : String
  doc_id : String
  chunk_len : Nat
  embedding : List ℚ
deriving DecidableEq, Inhabited, Repr

/-- One entry of a shard id-map (`ids.json`): HNSW label plus the stored
record fields, as written by `create_shards`. -/
structure IdEntry where
  label : Nat
  chunk_id : String
  doc_id : String
  chunk_len : Nat
  chunk_text : String
deriving DecidableEq, Inhabited, Repr

/-- The record carried by an id-map entry, with the local label stripped. -/
def IdEntry.record (e : IdEntry) : String × String × Nat × String :=
  (e.chunk_id, e.doc_id, e.chunk_len, e.chunk_text)

/-- The record stored for a chunk when it is written into an id-map. -/
def EmbeddingChunk.record (c : EmbeddingChunk) : String × String × Nat × String :=
  (c.chunk_id, c.doc_id, c.chunk_len, c.chunk)

/-- Index of the nearest centroid to `v` (L2 distance, first index on ties):
one row of `distances.argmin(axis=1)` in `create_shards`. -/
def nearestCentroid (centroids : List (List ℚ)) (v : List ℚ) : Nat :=
  argminIdx (centroids.map (fun c => sqDist v c))

/-- One element of the list returned by `create_shards`: the shard id and
metadata together with the in-memory artifacts.  The opaque HNSW binary is
not carried; `source_indices` is the code's `shard_indices` array
(`np.where(assignments == centroid_idx)[0]`), from which both the vectors
matrix and the id-map are produced. -/
structure ShardPayload where
  shard_id : String
  centroid_index : Nat
  centroid_vector : List ℚ
  embedding_dim : Nat
  num_vectors : Nat
  source_indices : List Nat
  vectors : List (List ℚ)
  ids : List IdEntry
deriving DecidableEq, Inhabited, Repr

/-- The assignment row `distances.argmin(axis=1)` of `create_shards`: the
nearest centroid index of every chunk, in batch order. -/
def buildAssignments (chunks : List EmbeddingChunk) (centroids : List (List ℚ)) :
    List Nat :=
  chunks.map (fun c => nearestCentroid centroids c.embedding)

/-- The code's `shard_indices = np.where(assignments == centroid_idx)[0]`:
the batch positions assigned to the given centroid, in encounter order. -/
def shardIndices (chunks : List EmbeddingChunk) (centroids : List (List ℚ))
    (cidx : Nat) : List Nat :=
  (List.range chunks.length).filter
    (fun i => (buildAssignments chunks centroids).getD i 0 = cidx)

/-- The payload built by one iteration of the shard loop of `create_shards`
for a non-empty centroid group. -/
def mkShardPayload (chunks : List EmbeddingChunk) (centroids : List (List ℚ))
    (shard_pfx : String) (cidx : Nat) : ShardPayload :=
  let idxs := shardIndices chunks centroids cidx
  { shard_id := shard_pfx ++ pad3 cidx
    centroid_index := cidx
    centroid_vector := centroids.getD cidx []
    embedding_dim := (centroids.headD []).length
    num_vectors := idxs.length
    source_indices := idxs
    vectors := idxs.map (fun i => (chunks.getD i default).embedding)
    ids := idxs.enum.map (fun li =>
      { label := li.1
        chunk_id := (chunks.getD li.2 default).chunk_id
        doc_id := (chunks.getD li.2 default).doc_id
        chunk_len := (chunks.getD li.2 default).chunk_len
        chunk_text := (chunks.getD li.2 default).chunk }) }

/-- The shard loop of `create_shards`: one payload per centroid index with a
non-empty group, in centroid order (empty groups are skipped). -/
def shardsOf (chunks : List EmbeddingChunk) (centroids : List (List ℚ))
    (shard_pfx : String) : List ShardPayload :=
  (List.range centroids.length).filterMap (fun cidx =>
    if (shardIndices chunks centroids cidx).isEmpty then none
    else some (mkShardPayload chunks centroids shard_pfx cidx))

/-- `create_shards` (`services/insert_index/shards.py`): assign every chunk
to its nearest centroid and emit one payload per non-empty centroid group.

* an empty chunk sequence returns `[]` (the code's early `return []`);
* a centroid argument that does not form a 2-D array, or forms an empty one,
  is a `ValueError`;
* a chunk embedding matrix that is not 2-D of the centroid width is a
  `ValueError`. -/
def create_shards (chunks : List EmbeddingChunk) (centroids : List (List ℚ))
    (shard_pfx : String := "shard_") : Except String (List ShardPayload) :=
  if chunks.isEmpty then .ok []
  else if !is2D centroids then .error "Centroids must be a 2D array."
  else if (centroids.headD []).length = 0 then .error "No centroid vectors provided."
  else if !(is2D (chunks.map (·.embedding)) &&
      ((chunks.headD default).embedding.length = (centroids.headD []).length)) then
    .error "Embedding dimensions do not match centroid dimensions."
  else
    .ok (shardsOf chunks centroids shard_pfx)

/-- `sample_embeddings` (`services/insert_index/sampling.py`).  The
deterministic Mersenne-twister shuffle is abstracted as a function
parameter `shuffle`; the validation and truncation logic is the code's. -/
def sample_embeddings (shuffle : List (List ℚ) → List (List ℚ))
    (embeddings : List (List ℚ)) (max_samples : Nat := 3000) :
    Except String (List (List ℚ)) :=
  if embeddings.isEmpty then .error "No embeddings available for sampling"
  else
    let selected := (shuffle embeddings).take max_samples
    if !is2D selected then .error "Embeddings must form a 2D matrix"
    else .ok selected

/-! ## Durable blob storage (`services/insert_index/store_blob.py`)

Only the two root blobs matter for the claims: `{prefix}/centroids.npy`
and `{prefix}/metadata.json`.  The store holds, for each, either `none`
(blob absent) or `some payload`.  Root metadata is a JSON object, modelled
as a list of string key/value pairs. -/

/-- The root-level durable blobs visible to readers. -/
structure BlobStore where
  centroids : Option (List (List ℚ))
  metadata : Option (List (String × String))
deriving DecidableEq, Inhabited, Repr

/-- A primitive blob upload (`blob_client.upload_blob(..., overwrite=True)`),
immediately visible to readers once applied. -/
inductive BlobOp where
  | writeCentroids (payload : List (List ℚ))
  | writeMetadata (payload : List (String × String))
deriving DecidableEq, Repr

/-- Apply one primitive upload to the store. -/
def applyOp (s : BlobStore) : BlobOp → BlobStore
  | .writeCentroids p => { s with centroids := some p }
  | .writeMetadata p => { s with metadata := some p }

/-- Apply a sequence of uploads in order. -/
def applyOps (s : BlobStore) (ops : List BlobOp) : BlobStore :=
  ops.foldl applyOp s

/-- The uploads performed by `ensure_centroids_blob`: skip when no payload is
passed and the blob already exists, otherwise upload (the payload, or an
empty array when none was passed) with `overwrite=True`. -/
def ensureCentroidsOps (s : BlobStore) (centroids : Option (List (List ℚ))) :
    List BlobOp :=
  if centroids.isNone && s.centroids.isSome then []
  else [.writeCentroids (centroids.getD [])]

/-- The uploads performed by `ensure_root_metadata_blob`: skip when no payload
is passed and the blob already exists, otherwise upload (the payload, or an
empty JSON object when none was passed) with `overwrite=True`. -/
def ensureMetadataOps (s : BlobStore) (metadata : Option (List (String × String))) :
    List BlobOp :=
  if metadata.isNone && s.metadata.isSome then []
  else [.writeMetadata (metadata.getD [])]

/-- `ensure_centroids_blob` as a state transformer on the blob store. -/
def ensure_centroids_blob (s : BlobStore) (centroids : Option (List (List ℚ))) :
    BlobStore :=
  applyOps s (ensureCentroidsOps s centroids)

/-- `ensure_root_metadata_blob` as a state transformer on the blob store. -/
def ensure_root_metadata_blob (s : BlobStore)
    (metadata : Option (List (String × String))) : BlobStore :=
  applyOps s (ensureMetadataOps s metadata)

/-- The sequence of root-blob uploads performed by the publish phase of
`create_hnsw` (`services/insert_index/server.py`, lines 46-47):
`ensure_centroids_blob(..., centroid_matrix)` followed by
`ensure_root_metadata_blob(..., metadata)`, each upload visible as soon as
it completes. -/
def create_hnsw_publish_trace (s : BlobStore) (centroids : List (List ℚ))
    (metadata : List (String × String)) : List BlobOp :=
  let t1 := ensureCentroidsOps s (some centroids)
  t1 ++ ensureMetadataOps (applyOps s t1) (some metadata)

/-! ## Retrieval engine (`services/retriever/retrieval.py`) -/

/-- A retrieval result (`services/retriever/schema.py`, `SearchResult`);
`metadata` is the full id-map entry the result was built from. -/
structure SearchResult where
  chunk_id : String
  doc_id : String
  score : ℚ
  text : String
  metadata : IdEntry
deriving DecidableEq, Inhabited, Repr

/-- An hnswlib index, abstracted: its element count
(`get_current_count()`) and a `knn_query` oracle mapping a query vector and
a neighbour count `k` to labelled distances (hnswlib raises — `.error` —
when `k` exceeds what the index can return). -/
structure HnswIndex where
  count : Nat
  knn : List ℚ → Nat → Except String (List (Nat × ℚ))

/-- The durable artifacts of one shard: presence flags for the four files
under `shards/shard_NNN/` plus the contents behind `index.bin` (the
abstract index) and `ids.json` (the id-map). -/
structure ShardBlob where
  has_index : Bool
  has_ids : Bool
  has_vectors : Bool
  has_meta : Bool
  index : HnswIndex
  ids : List IdEntry

/-- The local cache directory of one shard: presence flags for the four
artifact files and the directory mtime (the LRU clock). -/
structure LocalShardDir where
  has_index : Bool
  has_ids : Bool
  has_vectors : Bool
  has_meta : Bool
  mtime : ℚ
deriving DecidableEq, Inhabited, Repr

/-- `download_shard_artifacts` (`services/retriever/blob_storage.py`):
attempt to fetch each of the four artifacts; a file that exists durably is
written locally, a missing one raises `FileNotFoundError` which is caught
and leaves the local file as it was. -/
def download_shard_artifacts (blob : ShardBlob) (dir : LocalShardDir) :
    LocalShardDir :=
  { dir with
    has_index := blob.has_index || dir.has_index
    has_ids := blob.has_ids || dir.has_ids
    has_vectors := blob.has_vectors || dir.has_vectors
    has_meta := blob.has_meta || dir.has_meta }

/-- Python dict built by `{str(item["label"]): item for item in raw_data}`:
on duplicate labels the later entry wins, so lookup finds the last entry
with the given label. -/
def lookupLabel (ids : List IdEntry) (l : Nat) : Option IdEntry :=
  ids.reverse.find? (fun e => e.label = l)

/-- The result-assembly loop of `search_shard`: each ANN label returned by
`knn_query` is looked up in the id-map (labels absent from the map are
skipped with a warning) and its distance converted to the `1 - distance`
similarity score. -/
def resultsOfPairs (ids : List IdEntry) (pairs : List (Nat × ℚ)) :
    List SearchResult :=
  pairs.filterMap (fun ld =>
    match lookupLabel ids ld.1 with
    | some data => some
        { chunk_id := data.chunk_id
          doc_id := data.doc_id
          score := 1 - ld.2
          text := data.chunk_text
          metadata := data }
    | none => none)

/-- The per-directory body of `RetrievalEngine.search_shard`, acting on one
shard's durable blob and local directory (`clock` is the wall time used by
`Path.touch`):

* if `index.bin` or `ids.json` is missing locally, download all four
  artifacts;
* if `index.bin` is still missing, return no results (shard unsearchable);
* otherwise touch the directory mtime, open `ids.json` (raising if absent),
  load the index and query it for `min(top_n, count)` neighbours;
* each returned label is looked up in the id-map; missing labels are
  skipped; scores are `1 - distance`. -/
def searchShardDir (blob : ShardBlob) (dir : LocalShardDir) (clock : ℚ)
    (q : List ℚ) (top_n : Nat) :
    Except String (List SearchResult × LocalShardDir) :=
  let dir1 := if !(dir.has_index && dir.has_ids) then
      download_shard_artifacts blob dir
    else dir
  if !dir1.has_index then .ok ([], dir1)
  else
    let dir2 := { dir1 with mtime := clock }
    if !dir2.has_ids then .error "FileNotFoundError: ids.json"
    else
      match blob.index.knn q (min top_n blob.index.count) with
      | .error e => .error e
      | .ok pairs => .ok (resultsOfPairs blob.ids pairs, dir2)

/-- `RetrievalEngine.search_shard`: run the per-directory body on the
requested shard and write back its updated cache directory. -/
def search_shard (durable : Nat → ShardBlob) (clock : ℚ)
    (cache : Nat → LocalShardDir) (shard_id : Nat) (q : List ℚ)
    (top_n : Nat) :
    Except String (List SearchResult × (Nat → LocalShardDir)) :=
  match searchShardDir (durable shard_id) (cache shard_id) clock q top_n with
  | .error e => .error e
  | .ok rd => .ok (rd.1, Function.update cache shard_id rd.2)

/-- The lexicographic `(distance, index)` order used to model `np.argsort`:
smaller distance first, equal distances resolved by the smaller index. -/
def distLex (ds : List ℚ) (i j : Nat) : Prop :=
  ds.getD i 0 < ds.getD j 0 ∨ (ds.getD i 0 = ds.getD j 0 ∧ i ≤ j)

instance (ds : List ℚ) : DecidableRel (distLex ds) := fun i j => by
  unfold distLex; infer_instance

instance (ds : List ℚ) : IsTotal Nat (distLex ds) where
  total i j := by
    unfold distLex
    rcases lt_trichotomy (ds.getD i 0) (ds.getD j 0) with h | h | h
    · exact Or.inl (Or.inl h)
    · rcases Nat.le_total i j with hij | hij
      · exact Or.inl (Or.inr ⟨h, hij⟩)
      · exact Or.inr (Or.inr ⟨h.symm, hij⟩)
    · exact Or.inr (Or.inl h)

instance (ds : List ℚ) : IsTrans Nat (distLex ds) where
  trans i j k hij hjk := by
    unfold distLex at *
    rcases hij with h1 | ⟨h1, h1n⟩ <;> rcases hjk with h2 | ⟨h2, h2n⟩
    · exact Or.inl (h1.trans h2)
    · exact Or.inl (h2 ▸ h1)
    · exact Or.inl (h1 ▸ h2)
    · exact Or.inr ⟨h1.trans h2, h1n.trans h2n⟩

/-- One admissible refinement of `np.argsort`: the index range sorted by
the lexicographic `(distance, index)` order.  This is only *one* of the
orders numpy's unstable default sort may produce on ties; it is used as
the executable routing model, while tie-order-sensitive properties are
settled against `npArgsortContract` below. -/
def argsortQ (ds : List ℚ) : List Nat :=
  List.insertionSort (distLex ds) (List.range ds.length)

/-- What numpy documents about `np.argsort(dists)` (default
`kind='quicksort'`, not stable): the output is a permutation of the index
range along which the distances are non-decreasing.  Nothing is promised
about the relative order of indices with equal distances. -/
def npArgsortContract (ds : List ℚ) (out : List Nat) : Prop :=
  List.Perm out (List.range ds.length) ∧
  List.Pairwise (fun i j => ds.getD i 0 ≤ ds.getD j 0) out

/-- `RetrievalEngine.find_nearest_shards` with the argsort implementation
abstracted: the source's `np.argsort(dists)[:k]` for whichever index order
the sort produces. -/
def find_nearest_shardsWith (argsortImpl : List ℚ → List Nat)
    (centroids : List (List ℚ)) (q : List ℚ) (k : Nat) : List Nat :=
  (argsortImpl (centroids.map (fun c => sqDist c q))).take k

/-- `RetrievalEngine.find_nearest_shards`: L2 distance from the query to
every centroid, argsort, take `k` — instantiated with the executable
refinement `argsortQ`. -/
def find_nearest_shards (centroids : List (List ℚ)) (q : List ℚ) (k : Nat) :
    List Nat :=
  find_nearest_shardsWith argsortQ centroids q k

/-- Descending score order on results (the comparison behind
`sort(key=lambda x: x.score, reverse=True)`). -/
def scoreGe (a b : SearchResult) : Prop :=
  b.score ≤ a.score

instance : DecidableRel scoreGe := fun a b => by unfold scoreGe; infer_instance

instance : IsTotal SearchResult scoreGe where
  total a b := le_total b.score a.score

instance : IsTrans SearchResult scoreGe where
  trans _ _ _ h1 h2 := le_trans h2 h1

/-- The descending stable sort of
`all_results.sort(key=lambda x: x.score, reverse=True)`. -/
def sortByScoreDesc (l : List SearchResult) : List SearchResult :=
  List.insertionSort scoreGe l

/-- The shard loop of `RetrievalEngine.search`: visit the routed shards in
order, threading the cache state and accumulating all per-shard results
(an exception in any `search_shard` call aborts the whole query). -/
def searchLoop (durable : Nat → ShardBlob) (clock : ℚ) (q : List ℚ)
    (top_n : Nat) :
    List Nat → (Nat → LocalShardDir) → List SearchResult →
    Except String (List SearchResult × (Nat → LocalShardDir))
  | [], cache, acc => .ok (acc, cache)
  | s :: rest, cache, acc =>
    match search_shard durable clock cache s q top_n with
    | .error e => .error e
    | .ok rc => searchLoop durable clock q top_n rest rc.2 (acc ++ rc.1)

/-- `RetrievalEngine.search`: route to the `k_shards` nearest centroids,
search each routed shard, then sort all collected results by descending
score and keep the overall top `top_n_per_shard`. -/
def search (durable : Nat → ShardBlob) (clock : ℚ)
    (cache : Nat → LocalShardDir) (centroids : List (List ℚ)) (q : List ℚ)
    (k_shards : Nat) (top_n_per_shard : Nat) :
    Except String (List SearchResult × (Nat → LocalShardDir)) :=
  let shard_ids := find_nearest_shards centroids q k_shards
  match searchLoop durable clock q top_n_per_shard shard_ids cache [] with
  | .error e => .error e
  | .ok rc => .ok ((sortByScoreDesc rc.1).take top_n_per_shard, rc.2)

/-! ## Cache eviction (`services/retriever/cache_manager.py`) -/

/-- One entry directly under the cache root: its name, whether it is a
directory, its mtime (the LRU clock) and its total size in bytes. -/
structure CacheEntry where
  name : String
  isDir : Bool
  mtime : ℚ
  size : Nat
deriving DecidableEq, Inhabited, Repr

/-- Total bytes under the cache root (`get_dir_size(CACHE_DIR)`). -/
def totalSize (entries : List CacheEntry) : Nat :=
  (entries.map (·.size)).sum

/-- Is this entry an eviction candidate
(`item.is_dir() and item.name.startswith("shard_")`)?  The prefix test is
on the character sequence of the name. -/
def isShardDir (e : CacheEntry) : Bool :=
  e.isDir && "shard_".data.isPrefixOf e.name.data

/-- The deletion loop of `cleanup_cache`: walk the mtime-sorted candidates,
stop as soon as the freed bytes reach `toFree`, otherwise delete the next
directory and add its size to the freed total.  Returns the deleted
entries, in deletion order. -/
def evictList (toFree : Nat) (freed : Nat) : List CacheEntry → List CacheEntry
  | [] => []
  | e :: rest =>
    if toFree ≤ freed then []
    else e :: evictList toFree (freed + e.size) rest

/-- Ascending mtime order on cache entries
(`shards.sort(key=lambda x: x[1])`). -/
def mtimeLe (a b : CacheEntry) : Prop :=
  a.mtime ≤ b.mtime

instance : DecidableRel mtimeLe := fun a b => by unfold mtimeLe; infer_instance

instance : IsTotal CacheEntry mtimeLe where
  total a b := le_total a.mtime b.mtime

instance : IsTrans CacheEntry mtimeLe where
  trans _ _ _ h1 h2 := le_trans h1 h2

/-- The candidates of the sweep, sorted ascending by mtime (Python's stable
sort on the mtime key). -/
def sortByMtime (l : List CacheEntry) : List CacheEntry :=
  List.insertionSort mtimeLe l

/-- The entries the sweep deletes for the given budget and cache contents. -/
def cleanupDeleted (budget : Nat) (entries : List CacheEntry) : List CacheEntry :=
  evictList (totalSize entries - budget) 0
    (sortByMtime (entries.filter isShardDir))

/-- `cleanup_cache`: if total size is under budget do nothing; otherwise
delete whole shard directories oldest-first until the freed bytes cover the
excess over budget.  Returns the surviving cache contents. -/
def cleanup_cache (budget : Nat) (entries : List CacheEntry) : List CacheEntry :=
  if totalSize entries < budget then entries
  else
    let deleted := cleanupDeleted budget entries
    entries.filter (fun e => !(deleted.map (·.name)).contains e.name)

/-! ## Claims about the durable blob store (C5, C6) -/

/-- C6: `ensure_centroids_blob` and `ensure_root_metadata_blob` write their
blob only if it is absent in durable storage; an existing blob is left
unchanged unless a rebuild passes an explicit payload, which forces an
overwrite. -/
theorem ensure_blobs_write_if_absent (s : BlobStore) (c : List (List ℚ))
    (m : List (String × String)) :
    (s.centroids.isSome = true → ensure_centroids_blob s none = s) ∧
    (s.metadata.isSome = true → ensure_root_metadata_blob s none = s) ∧
    (s.centroids = none → (ensure_centroids_blob s none).centroids.isSome = true) ∧
    (s.metadata = none → (ensure_root_metadata_blob s none).metadata.isSome = true) ∧
    (ensure_centroids_blob s (some c)).centroids = some c ∧
    (ensure_root_metadata_blob s (some m)).metadata = some m := by
  refine ⟨?_, ?_, ?_, ?_, ?_, ?_⟩
  · intro h
    simp [ensure_centroids_blob, ensureCentroidsOps, h, applyOps]
  · intro h
    simp [ensure_root_metadata_blob, ensureMetadataOps, h, applyOps]
  · intro h
    simp [ensure_centroids_blob, ensureCentroidsOps, h, applyOps, applyOp]
  · intro h
    simp [ensure_root_metadata_blob, ensureMetadataOps, h, applyOps, applyOp]
  · simp [ensure_centroids_blob, ensureCentroidsOps, applyOps, applyOp]
  · simp [ensure_root_metadata_blob, ensureMetadataOps, applyOps, applyOp]

/-- Witness for C6 at concrete stores: a populated store is untouched by a
payload-free ensure, an empty store gets its blobs written, and an explicit
payload overwrites. -/
theorem ensure_blobs_write_if_absent_witness :
    ensure_centroids_blob ⟨some [[1]], some [("k", "v")]⟩ none =
      ⟨some [[1]], some [("k", "v")]⟩ ∧
    ensure_root_metadata_blob ⟨some [[1]], some [("k", "v")]⟩ none =
      ⟨some [[1]], some [("k", "v")]⟩ ∧
    (ensure_centroids_blob ⟨none, none⟩ none).centroids.isSome = true ∧
    (ensure_root_metadata_blob ⟨none, none⟩ none).metadata.isSome = true ∧
    (ensure_centroids_blob ⟨some [[1]], none⟩ (some [[2]])).centroids = some [[2]] ∧
    (ensure_root_metadata_blob ⟨none, some []⟩ (some [("a", "b")])).metadata =
      some [("a", "b")] :=
  ⟨(ensure_blobs_write_if_absent ⟨some [[1]], some [("k", "v")]⟩ [] []).1 rfl,
   (ensure_blobs_write_if_absent ⟨some [[1]], some [("k", "v")]⟩ [] []).2.1 rfl,
   (ensure_blobs_write_if_absent ⟨none, none⟩ [] []).2.2.1 rfl,
   (ensure_blobs_write_if_absent ⟨none, none⟩ [] []).2.2.2.1 rfl,
   (ensure_blobs_write_if_absent ⟨some [[1]], none⟩ [[2]] []).2.2.2.2.1,
   (ensure_blobs_write_if_absent ⟨none, some []⟩ [] [("a", "b")]).2.2.2.2.2⟩

/-- C5 counterexample: starting from an empty store, the publish phase of
`create_hnsw` is the two-upload sequence `[writeCentroids, writeMetadata]`,
and the state reached after its first upload — a strict prefix of the
trace, hence visible to readers between the two uploads — holds the new
centroids while the root metadata is still unwritten: an intermediate
state in which exactly one of the pair has been written. -/
theorem publish_pair_not_atomic_cex :
    (applyOps ⟨none, none⟩
        ((create_hnsw_publish_trace ⟨none, none⟩ [[1]] [("k", "v")]).take 1)).centroids
      = some [[1]] ∧
    (applyOps ⟨none, none⟩
        ((create_hnsw_publish_trace ⟨none, none⟩ [[1]] [("k", "v")]).take 1)).metadata
      = none ∧
    1 < (create_hnsw_publish_trace ⟨none, none⟩ [[1]] [("k", "v")]).length := by
  decide

/-- C5 amended: `create_hnsw` publishes the centroid matrix and the root
metadata by two *sequential* uploads (centroids first); after the full
trace both blobs reflect the new build, but after the first upload — an
intermediate state visible to readers — the centroids already reflect the
new build while the root metadata is unchanged, so the pair is not
published atomically. -/
theorem publish_pair_sequential (s : BlobStore) (c : List (List ℚ))
    (m : List (String × String)) :
    (applyOps s (create_hnsw_publish_trace s c m)).centroids = some c ∧
    (applyOps s (create_hnsw_publish_trace s c m)).metadata = some m ∧
    (create_hnsw_publish_trace s c m).length = 2 ∧
    (applyOps s ((create_hnsw_publish_trace s c m).take 1)).centroids = some c ∧
    (applyOps s ((create_hnsw_publish_trace s c m).take 1)).metadata = s.metadata := by
  refine ⟨?_, ?_, ?_, ?_, ?_⟩ <;>
    simp [create_hnsw_publish_trace, ensureCentroidsOps, ensureMetadataOps,
      applyOps, applyOp]

/-! ## Claim C4: build-time validation -/

/-- C4 counterexample: `create_shards` over zero records does **not** fail
with a validation error — it returns an empty success result (`.ok []`),
even against a well-formed non-empty centroid table. -/
theorem create_shards_empty_batch_ok_cex :
    create_shards [] [[1]] = .ok [] := rfl

/-- C4 amended: zero records are rejected by the sampling stage —
`sample_embeddings` fails with a validation error on an empty input — and a
batch whose embedding dimension disagrees with the centroid table fails
fast with a validation error in `create_shards`; `create_shards` itself,
however, maps an empty batch to an empty success result rather than an
error. -/
theorem build_validation_amended (shuffle : List (List ℚ) → List (List ℚ))
    (ms : Nat) (chunks : List EmbeddingChunk) (centroids : List (List ℚ))
    (hne : chunks ≠ []) (h2d : is2D centroids = true)
    (hw : (centroids.headD []).length ≠ 0)
    (hmm : ∃ ch ∈ chunks, ch.embedding.length ≠ (centroids.headD []).length) :
    sample_embeddings shuffle [] ms = .error "No embeddings available for sampling" ∧
    create_shards chunks centroids =
      .error "Embedding dimensions do not match centroid dimensions." ∧
    (∀ cents : List (List ℚ), create_shards [] cents = .ok []) := by
  refine ⟨rfl, ?_, fun cents => rfl⟩
  have hguard : (is2D (chunks.map (·.embedding)) &&
      decide ((chunks.headD default).embedding.length =
        (centroids.headD []).length)) = false := by
    obtain ⟨ch, hch, hlen⟩ := hmm
    cases h2 : is2D (chunks.map (·.embedding)) with
    | false => rw [Bool.false_and]
    | true =>
      rw [Bool.true_and]
      -- all embedding rows share the head row's width, which must then
      -- disagree with the centroid width
      unfold is2D at h2
      have hall := (List.all_eq_true.mp ((Bool.and_eq_true _ _).mp h2).2) _
        (List.mem_map_of_mem (·.embedding) hch)
      have hhead : (chunks.map (·.embedding)).headD [] =
          (chunks.headD default).embedding := by
        cases chunks with
        | nil => exact absurd rfl hne
        | cons a l => rfl
      rw [hhead] at hall
      have heq := of_decide_eq_true hall
      exact decide_eq_false (fun hcontra => hlen (heq.trans hcontra))
  rw [create_shards]
  rw [if_neg (show ¬chunks.isEmpty = true by
    cases chunks with
    | nil => exact absurd rfl hne
    | cons a l => simp)]
  rw [if_neg (show ¬(!is2D centroids) = true by rw [h2d]; simp)]
  rw [if_neg hw]
  rw [if_pos (show (!(is2D (chunks.map (·.embedding)) &&
      decide ((chunks.headD default).embedding.length =
        (centroids.headD []).length))) = true by rw [hguard]; rfl)]

/-- Witness for the amended C4 at concrete inputs: one record of dimension 2
against a one-dimensional centroid table. -/
theorem build_validation_amended_witness :
    sample_embeddings id [] 3000 = .error "No embeddings available for sampling" ∧
    create_shards [⟨"t", "c", "d", 1, [1, 2]⟩] [[0]] =
      .error "Embedding dimensions do not match centroid dimensions." ∧
    (∀ cents : List (List ℚ), create_shards [] cents = .ok []) :=
  build_validation_amended id 3000 [⟨"t", "c", "d", 1, [1, 2]⟩] [[0]]
    (by decide) (by decide) (by decide)
    ⟨⟨"t", "c", "d", 1, [1, 2]⟩, by decide⟩

/-! ## Claim C9: LRU cache eviction -/

/-- The deletion loop consumes an initial segment of the sorted candidate
list: eviction proceeds strictly oldest-first. -/
theorem evictList_prefix (toFree : Nat) :
    ∀ (freed : Nat) (l : List CacheEntry), evictList toFree freed l <+: l := by
  intro freed l
  induction l generalizing freed with
  | nil => simp [evictList]
  | cons e rest ih =>
    rw [evictList]
    by_cases h : toFree ≤ freed
    · simp [h]
    · rw [if_neg h]
      obtain ⟨t, ht⟩ := ih (freed + e.size)
      exact ⟨t, by rw [List.cons_append, ht]⟩

/-- Dropping the last deleted directory would not have freed enough bytes:
the loop stops as soon as the target is covered, not later. -/
theorem evictList_minimal (toFree : Nat) :
    ∀ (freed : Nat) (l : List CacheEntry), evictList toFree freed l ≠ [] →
      freed + totalSize (evictList toFree freed l).dropLast < toFree := by
  intro freed l
  induction l generalizing freed with
  | nil => simp [evictList]
  | cons e rest ih =>
    intro hne
    rw [evictList] at hne ⊢
    by_cases h : toFree ≤ freed
    · simp [h] at hne
    · rw [if_neg h] at hne ⊢
      cases hd : evictList toFree (freed + e.size) rest with
      | nil =>
        simpa [hd, totalSize] using Nat.lt_of_not_le h
      | cons d ds =>
        have := ih (freed + e.size) (by rw [hd]; simp)
        rw [hd] at this
        rw [List.dropLast_cons₂]
        simpa [totalSize, Nat.add_assoc] using this
        
/-- If the deletion loop stopped before exhausting the candidates, the
freed bytes cover the requested amount. -/
theorem evictList_covers (toFree : Nat) :
    ∀ (freed : Nat) (l : List CacheEntry),
      (evictList toFree freed l).length < l.length →
      toFree ≤ freed + totalSize (evictList toFree freed l) := by
  intro freed l
  induction l generalizing freed with
  | nil => simp [evictList]
  | cons e rest ih =>
    intro hlt
    rw [evictList] at hlt ⊢
    by_cases h : toFree ≤ freed
    · simp only [h, if_true, totalSize, List.map_nil, List.sum_nil,
        Nat.add_zero]
    · rw [if_neg h] at hlt ⊢
      have := ih (freed + e.size) (by simpa using hlt)
      simpa [totalSize, Nat.add_assoc] using this

/-- C9: when the sweep finds the cache over budget it deletes whole shard
directories in ascending mtime order, stopping as soon as the freed bytes
cover the excess over budget, and a cache under budget is untouched.
Conclusions, writing `deleted` for the deleted directories and `cands` for
the shard directories:

* under budget: nothing is removed;
* over budget: `deleted` is an initial segment of the mtime-sorted
  candidates; every deleted directory is at least as old as every surviving
  candidate; dropping the last deletion would not cover the excess; if any
  candidate survived, the freed bytes cover the excess; and an entry
  survives exactly when its name was not deleted. -/
theorem cleanup_cache_lru (budget : Nat) (entries : List CacheEntry) :
    (totalSize entries < budget → cleanup_cache budget entries = entries) ∧
    (budget ≤ totalSize entries →
      cleanupDeleted budget entries <+: sortByMtime (entries.filter isShardDir) ∧
      (∀ x ∈ cleanupDeleted budget entries, ∀ y ∈ entries.filter isShardDir,
        y ∉ cleanupDeleted budget entries → x.mtime ≤ y.mtime) ∧
      (cleanupDeleted budget entries ≠ [] →
        totalSize (cleanupDeleted budget entries).dropLast <
          totalSize entries - budget) ∧
      ((cleanupDeleted budget entries).length <
          (sortByMtime (entries.filter isShardDir)).length →
        totalSize entries - budget ≤ totalSize (cleanupDeleted budget entries)) ∧
      (∀ e ∈ entries, e ∈ cleanup_cache budget entries ↔
        e.name ∉ (cleanupDeleted budget entries).map (·.name))) := by
  constructor
  · intro h
    rw [cleanup_cache, if_pos h]
  · intro h
    have hpre : cleanupDeleted budget entries <+:
        sortByMtime (entries.filter isShardDir) :=
      evictList_prefix _ _ _
    refine ⟨hpre, ?_, ?_, ?_, ?_⟩
    · intro x hx y hy hyn
      obtain ⟨rest, hrest⟩ := hpre
      have hysort : y ∈ sortByMtime (entries.filter isShardDir) :=
        (List.perm_insertionSort mtimeLe _).mem_iff.mpr hy
      rw [← hrest] at hysort
      have hyrest : y ∈ rest := by
        rcases List.mem_append.mp hysort with h1 | h1
        · exact absurd h1 hyn
        · exact h1
      have hsorted : List.Sorted mtimeLe
          (sortByMtime (entries.filter isShardDir)) :=
        List.sorted_insertionSort mtimeLe _
      rw [← hrest] at hsorted
      exact (List.pairwise_append.mp hsorted).2.2 x hx y hyrest
    · intro hne
      simpa using evictList_minimal _ 0 _ hne
    · intro hlen
      simpa using evictList_covers _ 0 _ hlen
    · intro e he
      rw [cleanup_cache, if_neg (Nat.not_lt.mpr h)]
      show e ∈ List.filter _ entries ↔ _
      rw [List.mem_filter]
      constructor
      · intro hmem hcontra
        have h2 := hmem.2
        rw [Bool.not_eq_eq_eq_not, Bool.not_true] at h2
        rw [← List.elem_iff] at hcontra
        exact (Bool.eq_false_iff.mp h2) hcontra
      · intro hnm
        refine ⟨he, ?_⟩
        rw [Bool.not_eq_eq_eq_not, Bool.not_true]
        exact Bool.eq_false_iff.mpr (fun hc => hnm (List.elem_iff.mp hc))

/-- Witness for C9: cached shards A (t=1), B (t=5), C (t=10) of 10 bytes
each with a 25-byte budget need exactly one eviction; A is removed and B
and C remain. -/
theorem cleanup_cache_lru_witness :
    25 ≤ totalSize [⟨"shard_A", true, 1, 10⟩, ⟨"shard_B", true, 5, 10⟩,
      ⟨"shard_C", true, 10, 10⟩] ∧
    (∀ e ∈ ([⟨"shard_A", true, 1, 10⟩, ⟨"shard_B", true, 5, 10⟩,
        ⟨"shard_C", true, 10, 10⟩] : List CacheEntry),
      e ∈ cleanup_cache 25 [⟨"shard_A", true, 1, 10⟩, ⟨"shard_B", true, 5, 10⟩,
        ⟨"shard_C", true, 10, 10⟩] ↔
      e.name ∉ (cleanupDeleted 25 [⟨"shard_A", true, 1, 10⟩,
        ⟨"shard_B", true, 5, 10⟩, ⟨"shard_C", true, 10, 10⟩]).map (·.name)) ∧
    cleanup_cache 25 [⟨"shard_A", true, 1, 10⟩, ⟨"shard_B", true, 5, 10⟩,
      ⟨"shard_C", true, 10, 10⟩] =
      [⟨"shard_B", true, 5, 10⟩, ⟨"shard_C", true, 10, 10⟩] ∧
    cleanupDeleted 25 [⟨"shard_A", true, 1, 10⟩, ⟨"shard_B", true, 5, 10⟩,
      ⟨"shard_C", true, 10, 10⟩] = [⟨"shard_A", true, 1, 10⟩] :=
  ⟨by decide,
   ((cleanup_cache_lru 25 [⟨"shard_A", true, 1, 10⟩, ⟨"shard_B", true, 5, 10⟩,
      ⟨"shard_C", true, 10, 10⟩]).2 (by decide)).2.2.2.2,
   by decide, by decide⟩

/-! ## Claim C3: query routing -/

/-- The index list produced by the stable argsort is a permutation of the
index range. -/
theorem argsortQ_perm (ds : List ℚ) :
    List.Perm (argsortQ ds) (List.range ds.length) :=
  List.perm_insertionSort (distLex ds) (List.range ds.length)

/-- The stable argsort is pairwise ordered by the strict lexicographic
`(distance, index)` order. -/
theorem argsortQ_pairwise (ds : List ℚ) :
    List.Pairwise (fun i j => ds.getD i 0 < ds.getD j 0 ∨
      (ds.getD i 0 = ds.getD j 0 ∧ i < j)) (argsortQ ds) := by
  have hsorted : List.Sorted (distLex ds) (argsortQ ds) :=
    List.sorted_insertionSort (distLex ds) (List.range ds.length)
  have hnd : (argsortQ ds).Nodup :=
    (argsortQ_perm ds).nodup_iff.mpr (List.nodup_range _)
  refine ((List.Pairwise.and hsorted hnd).imp ?_)
  rintro i j ⟨hlex, hne⟩
  rcases hlex with h | ⟨heq, hle⟩
  · exact Or.inl h
  · exact Or.inr ⟨heq, lt_of_le_of_ne hle hne⟩

/-- The stable refinement `argsortQ` satisfies numpy's documented argsort
contract. -/
theorem argsortQ_contract (ds : List ℚ) : npArgsortContract ds (argsortQ ds) :=
  ⟨argsortQ_perm ds, (argsortQ_pairwise ds).imp (fun h => by
    rcases h with h | ⟨heq, _⟩
    · exact le_of_lt h
    · exact le_of_eq heq)⟩

/-- The executable route never repeats a shard index. -/
theorem find_nearest_shards_nodup (centroids : List (List ℚ)) (q : List ℚ)
    (k : Nat) : (find_nearest_shards centroids q k).Nodup :=
  ((argsortQ_perm (centroids.map (fun c => sqDist c q))).nodup_iff.mpr
    (List.nodup_range _)).sublist (List.take_sublist _ _)

/-- C3 counterexample: the claimed lower-index tie-break is not a property
of `np.argsort(dists)[:k]`.  On centroids `[[0], [4], [0]]` and query
`[0]`, centroids 0 and 2 are equidistant; the index order `[2, 0, 1]`
satisfies everything numpy documents about the default (unstable) argsort
on this distance row, yet routing through it yields `[2, 0]` — the tied
pair with the *higher* index first, refuting the claim's tie clause at
this concrete input. -/
theorem find_nearest_shards_tie_unspecified_cex :
    npArgsortContract
      (([[0], [4], [0]] : List (List ℚ)).map (fun c => sqDist c [0]))
      [2, 0, 1] ∧
    find_nearest_shardsWith (fun _ => [2, 0, 1]) [[0], [4], [0]] [0] 2 =
      [2, 0] ∧
    (([[0], [4], [0]] : List (List ℚ)).map (fun c => sqDist c [0])).getD 2 0 =
      (([[0], [4], [0]] : List (List ℚ)).map (fun c => sqDist c [0])).getD 0 0 ∧
    (0 : Nat) < 2 := by
  have hds : ([[0], [4], [0]] : List (List ℚ)).map (fun c => sqDist c [0]) =
      [0, 16, 0] := by
    norm_num [sqDist]
  refine ⟨?_, rfl, ?_, by decide⟩
  · rw [npArgsortContract, hds]
    exact ⟨by decide, by decide⟩
  · rw [hds]
    decide

/-- C3 amended: for every argsort implementation admitted by numpy's
documented contract, `find_nearest_shards` returns `min k K` distinct
valid centroid indices, ordered by non-decreasing L2 distance to the
query, and every selected index is at least as close as every
non-selected one.  The relative order of equally distant centroids (and
which of them is selected at the cut-off) is unspecified: the default
`np.argsort` is not stable, so ties are *not* guaranteed to be broken in
favour of the lower centroid index. -/
theorem find_nearest_shards_routing_amended
    (argsortImpl : List ℚ → List Nat) (centroids : List (List ℚ))
    (q : List ℚ) (k : Nat)
    (hc : npArgsortContract (centroids.map (fun c => sqDist c q))
      (argsortImpl (centroids.map (fun c => sqDist c q)))) :
    (find_nearest_shardsWith argsortImpl centroids q k).length =
      min k centroids.length ∧
    (find_nearest_shardsWith argsortImpl centroids q k).Nodup ∧
    (∀ i ∈ find_nearest_shardsWith argsortImpl centroids q k,
      i < centroids.length) ∧
    List.Pairwise (fun i j =>
      (centroids.map (fun c => sqDist c q)).getD i 0 ≤
        (centroids.map (fun c => sqDist c q)).getD j 0)
      (find_nearest_shardsWith argsortImpl centroids q k) ∧
    (∀ i ∈ find_nearest_shardsWith argsortImpl centroids q k,
      ∀ j < centroids.length,
        j ∉ find_nearest_shardsWith argsortImpl centroids q k →
        (centroids.map (fun c => sqDist c q)).getD i 0 ≤
          (centroids.map (fun c => sqDist c q)).getD j 0) := by
  obtain ⟨hperm, hpw⟩ := hc
  set ds := centroids.map (fun c => sqDist c q) with hds
  set out := argsortImpl ds with hout
  have hlen : ds.length = centroids.length := List.length_map _ _
  have hnd : out.Nodup := hperm.nodup_iff.mpr (List.nodup_range _)
  have houtlen : out.length = centroids.length := by
    rw [hperm.length_eq, List.length_range, hlen]
  refine ⟨?_, ?_, ?_, ?_, ?_⟩
  · show (out.take k).length = min k centroids.length
    rw [List.length_take, houtlen]
  · exact hnd.sublist (List.take_sublist _ _)
  · intro i hi
    have h1 : i ∈ out := List.mem_of_mem_take hi
    have := hperm.mem_iff.mp h1
    rw [List.mem_range, hlen] at this
    exact this
  · exact hpw.sublist (List.take_sublist _ _)
  · intro i hi j hj hjn
    have hjout : j ∈ out := by
      rw [hperm.mem_iff, List.mem_range, hlen]
      exact hj
    have hsplit : out = out.take k ++ out.drop k :=
      (List.take_append_drop k out).symm
    have hjdrop : j ∈ out.drop k := by
      rcases List.mem_append.mp (hsplit ▸ hjout) with h1 | h1
      · exact absurd h1 hjn
      · exact h1
    exact (List.pairwise_append.mp (hsplit ▸ hpw)).2.2 i hi j hjdrop

/-- Witness for the amended C3: the stable refinement is one admissible
argsort; at three one-dimensional centroids with `k = 2` the route has
`min 2 3` entries. -/
theorem find_nearest_shards_routing_amended_witness :
    (find_nearest_shardsWith argsortQ [[0], [4], [0]] [0] 2).length =
      min 2 ([[0], [4], [0]] : List (List ℚ)).length :=
  (find_nearest_shards_routing_amended argsortQ [[0], [4], [0]] [0] 2
    (argsortQ_contract _)).1

/-! ## Claim C1: the build partition -/

/-- `listMin` is a lower bound of the list. -/
theorem listMin_le (l : List ℚ) : ∀ j < l.length, listMin l ≤ l.getD j 0 := by
  induction l with
  | nil => intro j hj; simp at hj
  | cons x xs ih =>
    intro j hj
    cases xs with
    | nil =>
      cases j with
      | zero => simp [listMin]
      | succ j =>
        rw [List.length_cons, List.length_nil] at hj
        omega
    | cons y ys =>
      cases j with
      | zero =>
        rw [List.getD_cons_zero]
        exact min_le_left _ _
      | succ j =>
        rw [List.getD_cons_succ]
        exact le_trans (min_le_right x (listMin (y :: ys)))
          (ih j (by simpa using hj))

/-- `argminIdx` of a non-empty list is a valid index. -/
theorem argminIdx_lt_length (l : List ℚ) (h : l ≠ []) : argminIdx l < l.length := by
  induction l with
  | nil => exact absurd rfl h
  | cons x xs ih =>
    cases xs with
    | nil => simp [argminIdx]
    | cons y ys =>
      rw [argminIdx]
      by_cases hle : x ≤ listMin (y :: ys)
      · rw [if_pos hle]; simp
      · rw [if_neg hle, List.length_cons]
        exact Nat.succ_lt_succ (ih (by simp))

/-- The value at `argminIdx` is the minimum of the list. -/
theorem argminIdx_val (l : List ℚ) (h : l ≠ []) :
    l.getD (argminIdx l) 0 = listMin l := by
  induction l with
  | nil => exact absurd rfl h
  | cons x xs ih =>
    cases xs with
    | nil => simp [argminIdx, listMin]
    | cons y ys =>
      rw [argminIdx]
      by_cases hle : x ≤ listMin (y :: ys)
      · rw [if_pos hle, List.getD_cons_zero]
        exact (min_eq_left hle).symm
      · rw [if_neg hle, List.getD_cons_succ, ih (by simp)]
        exact (min_eq_right (le_of_not_le hle)).symm

/-- Every position strictly before `argminIdx` holds a strictly larger
value: `argminIdx` is the *first* occurrence of the minimum. -/
theorem argminIdx_first (l : List ℚ) :
    ∀ j < argminIdx l, listMin l < l.getD j 0 := by
  induction l with
  | nil => intro j hj; simp [argminIdx] at hj
  | cons x xs ih =>
    intro j hj
    cases xs with
    | nil => simp [argminIdx] at hj
    | cons y ys =>
      rw [argminIdx] at hj
      by_cases hle : x ≤ listMin (y :: ys)
      · rw [if_pos hle] at hj; exact absurd hj (Nat.not_lt_zero j)
      · rw [if_neg hle] at hj
        have hmin : listMin (x :: y :: ys) = listMin (y :: ys) :=
          min_eq_right (le_of_not_le hle)
        cases j with
        | zero =>
          rw [List.getD_cons_zero, hmin]
          exact lt_of_not_le hle
        | succ j =>
          rw [List.getD_cons_succ, hmin]
          exact ih j (Nat.lt_of_succ_lt_succ hj)

/-- `getD` on a mapped list, inside bounds, is the mapped `getD`. -/
theorem getD_map_lt {α β : Type} (f : α → β) (l : List α) (i : Nat)
    (h : i < l.length) (d₀ : β) (dα : α) :
    (l.map f).getD i d₀ = f (l.getD i dα) := by
  rw [List.getD_eq_getElem?_getD, List.getElem?_map,
    List.getElem?_eq_getElem h, List.getD_eq_getElem?_getD,
    List.getElem?_eq_getElem h]
  rfl

/-- Reading a whole list back through `getD` over its index range. -/
theorem map_getD_range {α β : Type} (l : List α) (f : α → β) (dα : α) :
    (List.range l.length).map (fun i => f (l.getD i dα)) = l.map f := by
  induction l with
  | nil => rfl
  | cons x xs ih =>
    rw [List.length_cons, List.range_succ_eq_map, List.map_cons, List.map_map,
      show ((fun i => f ((x :: xs).getD i dα)) ∘ Nat.succ) =
        (fun i => f (xs.getD i dα)) from rfl, ih, List.getD_cons_zero,
      ← List.map_cons]

/-- Summing an indicator over a duplicate-free list. -/
theorem sum_map_ite_mem (l : List Nat) (v m : Nat) (hnd : l.Nodup) :
    (l.map (fun c => if v = c then m else 0)).sum = if v ∈ l then m else 0 := by
  induction l with
  | nil => simp
  | cons c cs ih =>
    rw [List.map_cons, List.sum_cons, ih (List.nodup_cons.mp hnd).2]
    by_cases hv : v = c
    · subst hv
      have hnot : v ∉ cs := (List.nodup_cons.mp hnd).1
      simp [hnot]
    · simp [hv, List.mem_cons]

/-- Dropping the empty groups before flattening changes nothing. -/
theorem flatten_filterMap_dropEmpty {α : Type} (g : Nat → List α) (l : List Nat) :
    (l.filterMap (fun c => if (g c).isEmpty then none else some (g c))).flatten
      = (l.map g).flatten := by
  induction l with
  | nil => rfl
  | cons c cs ih =>
    rw [List.filterMap_cons, List.map_cons, List.flatten_cons]
    by_cases h : (g c).isEmpty
    · rw [if_pos h, ih, List.isEmpty_iff.mp h, List.nil_append]
    · rw [if_neg h, List.flatten_cons, ih]

/-- Membership in a centroid group: exactly the in-range batch positions
whose assignment is that centroid. -/
theorem mem_shardIndices {chunks : List EmbeddingChunk}
    {centroids : List (List ℚ)} {cidx i : Nat} :
    i ∈ shardIndices chunks centroids cidx ↔
      i < chunks.length ∧
        (buildAssignments chunks centroids).getD i 0 = cidx := by
  simp [shardIndices, List.mem_filter, List.mem_range]

/-- Membership in the shard list: the payloads of the non-empty centroid
groups. -/
theorem mem_shardsOf {chunks : List EmbeddingChunk}
    {centroids : List (List ℚ)} {pfx : String} {s : ShardPayload} :
    s ∈ shardsOf chunks centroids pfx ↔
      ∃ cidx, cidx < centroids.length ∧
        shardIndices chunks centroids cidx ≠ [] ∧
        s = mkShardPayload chunks centroids pfx cidx := by
  rw [shardsOf, List.mem_filterMap]
  constructor
  · rintro ⟨c, hc, hsome⟩
    by_cases h : (shardIndices chunks centroids c).isEmpty
    · rw [if_pos h] at hsome; exact absurd hsome (by simp)
    · rw [if_neg h] at hsome
      exact ⟨c, List.mem_range.mp hc,
        fun hnil => h (by rw [hnil]; rfl), (Option.some_injective _ hsome).symm⟩
  · rintro ⟨c, hc, hne, hs⟩
    refine ⟨c, List.mem_range.mpr hc, ?_⟩
    rw [if_neg (fun h => hne (List.isEmpty_iff.mp h)), hs]

/-- In-range reads of the assignment row are the nearest-centroid indices. -/
theorem buildAssignments_getD {chunks : List EmbeddingChunk}
    {centroids : List (List ℚ)} {i : Nat} (h : i < chunks.length) :
    (buildAssignments chunks centroids).getD i 0 =
      nearestCentroid centroids ((chunks.getD i default).embedding) := by
  rw [buildAssignments, getD_map_lt _ _ _ h 0 default]

/-- Every assignment of an in-range position names a valid centroid. -/
theorem buildAssignments_lt {chunks : List EmbeddingChunk}
    {centroids : List (List ℚ)} (hcne : centroids ≠ []) {i : Nat}
    (h : i < chunks.length) :
    (buildAssignments chunks centroids).getD i 0 < centroids.length := by
  rw [buildAssignments_getD h, nearestCentroid]
  have := argminIdx_lt_length (centroids.map
    (fun c => sqDist (chunks.getD i default).embedding c))
    (by simpa using hcne)
  simpa using this

/-- The concatenation of the `source_indices` of all shards is a
permutation of the batch index range: no position dropped or duplicated. -/
theorem shardsOf_sources_perm (chunks : List EmbeddingChunk)
    (centroids : List (List ℚ)) (pfx : String) (hcne : centroids ≠ []) :
    List.Perm
      ((shardsOf chunks centroids pfx).map (·.source_indices)).flatten
      (List.range chunks.length) := by
  have hfun : (fun c => (if (shardIndices chunks centroids c).isEmpty then none
      else some (mkShardPayload chunks centroids pfx c)).map
        (·.source_indices)) =
      (fun c => if (shardIndices chunks centroids c).isEmpty then none
      else some (shardIndices chunks centroids c)) := by
    funext c
    by_cases h : (shardIndices chunks centroids c).isEmpty <;>
      simp [h, mkShardPayload]
  have h1 : (shardsOf chunks centroids pfx).map (·.source_indices) =
      (List.range centroids.length).filterMap (fun c =>
        if (shardIndices chunks centroids c).isEmpty then none
        else some (shardIndices chunks centroids c)) := by
    rw [shardsOf, List.map_filterMap, hfun]
  rw [h1, flatten_filterMap_dropEmpty]
  refine List.perm_iff_count.mpr (fun x => ?_)
  rw [List.count_flatten, List.map_map]
  rw [List.map_congr_left
    (g := fun c => if (buildAssignments chunks centroids).getD x 0 = c
      then List.count x (List.range chunks.length) else 0)
    (fun c _ => by
      show List.count x (shardIndices chunks centroids c) =
        if (buildAssignments chunks centroids).getD x 0 = c
        then List.count x (List.range chunks.length) else 0
      by_cases hxc : (buildAssignments chunks centroids).getD x 0 = c
      · rw [if_pos hxc, shardIndices]
        exact List.count_filter (by simpa using hxc)
      · rw [if_neg hxc]
        refine List.count_eq_zero.mpr (fun hmem => ?_)
        exact hxc (mem_shardIndices.mp hmem).2)]
  rw [sum_map_ite_mem _ _ _ (List.nodup_range _)]
  by_cases hx : x < chunks.length
  · rw [if_pos (List.mem_range.mpr (buildAssignments_lt hcne hx))]
  · have h0 : List.count x (List.range chunks.length) = 0 :=
      List.count_eq_zero.mpr (fun hm => hx (List.mem_range.mp hm))
    rw [h0, ite_self]

/-- The records stored in a shard id-map are the records of the chunks at
its source indices, in order. -/
theorem mkShardPayload_ids_records (chunks : List EmbeddingChunk)
    (centroids : List (List ℚ)) (pfx : String) (cidx : Nat) :
    (mkShardPayload chunks centroids pfx cidx).ids.map IdEntry.record =
      (mkShardPayload chunks centroids pfx cidx).source_indices.map
        (fun i => (chunks.getD i default).record) := by
  show ((shardIndices chunks centroids cidx).enum.map _).map IdEntry.record = _
  rw [List.map_map]
  have : (IdEntry.record ∘ fun li : Nat × Nat =>
      ({ label := li.1
         chunk_id := (chunks.getD li.2 default).chunk_id
         doc_id := (chunks.getD li.2 default).doc_id
         chunk_len := (chunks.getD li.2 default).chunk_len
         chunk_text := (chunks.getD li.2 default).chunk } : IdEntry)) =
      (fun i => (chunks.getD i default).record) ∘ Prod.snd := rfl
  rw [this, ← List.map_map, List.enum_map_snd]
  rfl

/-- C1: for every non-empty build batch and non-empty centroid matrix of
matching dimension, `create_shards` succeeds and partitions the batch:

* every batch position belongs to exactly one shard;
* a shard holds only positions whose chunk is at minimal L2 distance to the
  shard's centroid, with any strictly lower-indexed centroid strictly
  farther (ties broken by the lowest centroid index);
* the concatenation of all shards' source indices is a permutation of the
  batch index range — no record dropped or duplicated;
* the union of all shards' id-maps carries the records of the input batch
  exactly once each. -/
theorem create_shards_partition (chunks : List EmbeddingChunk)
    (centroids : List (List ℚ)) (d : Nat) (pfx : String)
    (hne : chunks ≠ []) (hcne : centroids ≠ []) (hd : 0 < d)
    (hcd : ∀ c ∈ centroids, c.length = d)
    (hvd : ∀ ch ∈ chunks, ch.embedding.length = d) :
    ∃ shards, create_shards chunks centroids pfx = .ok shards ∧
      (∀ i < chunks.length, ∃! s, s ∈ shards ∧ i ∈ s.source_indices) ∧
      (∀ s ∈ shards, ∀ i ∈ s.source_indices,
        i < chunks.length ∧ s.centroid_index < centroids.length ∧
        (∀ j < centroids.length,
          sqDist (chunks.getD i default).embedding
              (centroids.getD s.centroid_index []) ≤
            sqDist (chunks.getD i default).embedding (centroids.getD j [])) ∧
        (∀ j < s.centroid_index,
          sqDist (chunks.getD i default).embedding
              (centroids.getD s.centroid_index []) <
            sqDist (chunks.getD i default).embedding (centroids.getD j []))) ∧
      List.Perm (shards.map (·.source_indices)).flatten
        (List.range chunks.length) ∧
      List.Perm (shards.map (fun s => s.ids.map IdEntry.record)).flatten
        (chunks.map EmbeddingChunk.record) := by
  have hheadc : centroids.headD [] ∈ centroids := by
    cases centroids with
    | nil => exact absurd rfl hcne
    | cons c cs => exact List.mem_cons_self _ _
  have hheadlen : (centroids.headD []).length = d := hcd _ hheadc
  have hheadch : (chunks.map (·.embedding)).headD [] =
      (chunks.headD default).embedding := by
    cases chunks with
    | nil => exact absurd rfl hne
    | cons a l => rfl
  have hheadchunk : chunks.headD default ∈ chunks := by
    cases chunks with
    | nil => exact absurd rfl hne
    | cons a l => exact List.mem_cons_self _ _
  refine ⟨shardsOf chunks centroids pfx, ?_, ?_, ?_, ?_, ?_⟩
  · -- all four guards pass
    rw [create_shards]
    rw [if_neg (show ¬chunks.isEmpty = true by
      cases chunks with
      | nil => exact absurd rfl hne
      | cons a l => simp)]
    rw [if_neg (show ¬(!is2D centroids) = true by
      rw [show is2D centroids = true by
        unfold is2D
        rw [Bool.and_eq_true]
        refine ⟨by cases centroids with
          | nil => exact absurd rfl hcne
          | cons c cs => simp, ?_⟩
        refine List.all_eq_true.mpr (fun c hc => ?_)
        exact decide_eq_true (by rw [hcd _ hc, hheadlen])]
      simp)]
    rw [if_neg (show ¬(centroids.headD []).length = 0 by omega)]
    have hg : (is2D (chunks.map (·.embedding)) &&
        decide ((chunks.headD default).embedding.length =
          (centroids.headD []).length)) = true := by
      rw [show is2D (chunks.map (·.embedding)) = true by
        unfold is2D
        rw [Bool.and_eq_true]
        refine ⟨by cases chunks with
          | nil => exact absurd rfl hne
          | cons a l => simp, ?_⟩
        refine List.all_eq_true.mpr (fun r hr => ?_)
        obtain ⟨ch, hch, rfl⟩ := List.mem_map.mp hr
        rw [hheadch]
        exact decide_eq_true (by rw [hvd _ hch, hvd _ hheadchunk])]
      rw [Bool.true_and]
      exact decide_eq_true (by rw [hvd _ hheadchunk, hheadlen])
    rw [if_neg (show ¬(!(is2D (chunks.map (·.embedding)) &&
        decide ((chunks.headD default).embedding.length =
          (centroids.headD []).length))) = true by rw [hg]; simp)]
  · -- every position lands in exactly one shard
    intro i hi
    have hci := buildAssignments_lt hcne hi
    have himem : i ∈ shardIndices chunks centroids
        ((buildAssignments chunks centroids).getD i 0) :=
      mem_shardIndices.mpr ⟨hi, rfl⟩
    refine ⟨mkShardPayload chunks centroids pfx
      ((buildAssignments chunks centroids).getD i 0),
      ⟨mem_shardsOf.mpr ⟨_, hci, List.ne_nil_of_mem himem, rfl⟩, himem⟩, ?_⟩
    rintro s' ⟨hs', his'⟩
    obtain ⟨c', hc', hcne2, rfl⟩ := mem_shardsOf.mp hs'
    have : (buildAssignments chunks centroids).getD i 0 = c' :=
      (mem_shardIndices.mp his').2
    rw [this]
  · -- the shard of a record is its nearest centroid (ties: lowest index)
    intro s hs i hi'
    obtain ⟨c, hcK, hcne2, rfl⟩ := mem_shardsOf.mp hs
    obtain ⟨hin, heq⟩ := mem_shardIndices.mp hi'
    have hassign : nearestCentroid centroids
        ((chunks.getD i default).embedding) = c := by
      rw [← buildAssignments_getD hin]; exact heq
    have hdsne : centroids.map
        (fun cc => sqDist ((chunks.getD i default).embedding) cc) ≠ [] := by
      simpa using hcne
    have hdslen : (centroids.map
        (fun cc => sqDist ((chunks.getD i default).embedding) cc)).length =
        centroids.length := List.length_map _ _
    refine ⟨hin, hcK, ?_, ?_⟩
    · intro j hj
      have h2 := listMin_le _ j (by rw [hdslen]; exact hj)
      rw [← argminIdx_val _ hdsne] at h2
      rw [show (mkShardPayload chunks centroids pfx c).centroid_index = c
        from rfl]
      rw [← getD_map_lt (fun cc =>
          sqDist ((chunks.getD i default).embedding) cc) centroids c hcK 0 [],
        ← getD_map_lt (fun cc =>
          sqDist ((chunks.getD i default).embedding) cc) centroids j hj 0 []]
      rw [← hassign]
      exact h2
    · intro j hj
      rw [show (mkShardPayload chunks centroids pfx c).centroid_index = c
        from rfl] at hj ⊢
      have hj' : j < centroids.length := lt_trans hj hcK
      have h2 := argminIdx_first
        (centroids.map (fun cc => sqDist ((chunks.getD i default).embedding) cc))
        j (by rw [nearestCentroid] at hassign; rw [hassign]; exact hj)
      rw [← argminIdx_val _ hdsne] at h2
      rw [← getD_map_lt (fun cc =>
          sqDist ((chunks.getD i default).embedding) cc) centroids c hcK 0 [],
        ← getD_map_lt (fun cc =>
          sqDist ((chunks.getD i default).embedding) cc) centroids j hj' 0 []]
      rw [← hassign]
      exact h2
  · exact shardsOf_sources_perm chunks centroids pfx hcne
  · -- the union of the id-maps is the batch, exactly once each
    have hcongr : (shardsOf chunks centroids pfx).map
        (fun s => s.ids.map IdEntry.record) =
        (shardsOf chunks centroids pfx).map
        (fun s => s.source_indices.map
          (fun i => EmbeddingChunk.record (chunks.getD i default))) :=
      List.map_congr_left (fun s hs => by
        obtain ⟨c, _, _, rfl⟩ := mem_shardsOf.mp hs
        exact mkShardPayload_ids_records chunks centroids pfx c)
    rw [hcongr]
    rw [show (shardsOf chunks centroids pfx).map
        (fun s => s.source_indices.map
          (fun i => EmbeddingChunk.record (chunks.getD i default))) =
        ((shardsOf chunks centroids pfx).map (·.source_indices)).map
          (List.map (fun i => EmbeddingChunk.record (chunks.getD i default)))
      from by rw [List.map_map]; rfl]
    rw [← List.map_flatten]
    have hperm := (shardsOf_sources_perm chunks centroids pfx hcne).map
      (fun i => EmbeddingChunk.record (chunks.getD i default))
    rw [map_getD_range chunks EmbeddingChunk.record default] at hperm
    exact hperm

/-- Witness for C1: a four-record batch against two one-dimensional
centroids; the build succeeds and the union of the shard id-maps is the
input batch exactly once. -/
theorem create_shards_partition_witness :
    ∃ shards, create_shards
        [⟨"t1", "c1", "d1", 1, [0]⟩, ⟨"t2", "c2", "d2", 1, [10]⟩,
          ⟨"t3", "c3", "d3", 1, [1]⟩, ⟨"t4", "c4", "d4", 1, [11]⟩]
        [[0], [10]] "shard_" = .ok shards ∧
      List.Perm (shards.map (fun s => s.ids.map IdEntry.record)).flatten
        (([⟨"t1", "c1", "d1", 1, [0]⟩, ⟨"t2", "c2", "d2", 1, [10]⟩,
          ⟨"t3", "c3", "d3", 1, [1]⟩, ⟨"t4", "c4", "d4", 1, [11]⟩] :
            List EmbeddingChunk).map EmbeddingChunk.record) := by
  obtain ⟨sh, hok, _, _, _, hperm⟩ := create_shards_partition
    [⟨"t1", "c1", "d1", 1, [0]⟩, ⟨"t2", "c2", "d2", 1, [10]⟩,
      ⟨"t3", "c3", "d3", 1, [1]⟩, ⟨"t4", "c4", "d4", 1, [11]⟩]
    [[0], [10]] 1 "shard_" (by decide) (by decide) (by decide)
    (by decide) (by decide)
  exact ⟨sh, hok, hperm⟩

/-! ## Claim C10: per-shard neighbour count -/

/-- C10: for a shard whose index holds `count` vectors and an oracle that
answers any request of at most `count` neighbours with exactly that many
results (hnswlib's behaviour), the per-shard search requests
`min top_n count` neighbours, never errors, and yields at most
`min top_n count ≤ count` results for that shard. -/
theorem search_shard_caps_neighbours (blob : ShardBlob) (dir : LocalShardDir)
    (clock : ℚ) (q : List ℚ) (top_n : Nat)
    (hbi : blob.has_index = true) (hbd : blob.has_ids = true)
    (hknn : ∀ k ≤ blob.index.count,
      ∃ rs, blob.index.knn q k = .ok rs ∧ rs.length = k) :
    ∃ rs dir2, searchShardDir blob dir clock q top_n = .ok (rs, dir2) ∧
      rs.length ≤ min top_n blob.index.count ∧
      rs.length ≤ blob.index.count := by
  obtain ⟨rs0, hrs0, hlen0⟩ :=
    hknn (min top_n blob.index.count) (Nat.min_le_right _ _)
  have hbound : (resultsOfPairs blob.ids rs0).length ≤ min top_n blob.index.count := by
    rw [← hlen0]
    exact List.length_filterMap_le _ _
  by_cases hb : (dir.has_index && dir.has_ids) = true
  · obtain ⟨h1, h2⟩ := (Bool.and_eq_true _ _).mp hb
    refine ⟨resultsOfPairs blob.ids rs0,
      { dir with mtime := clock }, ?_, hbound,
      le_trans hbound (Nat.min_le_right _ _)⟩
    simp [searchShardDir, h1, h2, hrs0]
  · refine ⟨resultsOfPairs blob.ids rs0,
      { download_shard_artifacts blob dir with mtime := clock }, ?_, hbound,
      le_trans hbound (Nat.min_le_right _ _)⟩
    simp only [searchShardDir, Bool.eq_false_iff.mpr hb, Bool.not_false,
      if_true, download_shard_artifacts, hbi, hbd, Bool.true_or,
      Bool.not_true, Bool.false_eq_true, if_false, hrs0]

/-- Witness for C10: a shard of two vectors queried with `top_n = 5`
answers without error and returns at most two results. -/
theorem search_shard_caps_neighbours_witness :
    ∃ rs dir2, searchShardDir
      ⟨true, true, true, true,
        ⟨2, fun _ k => .ok ((List.range k).map (fun i => (i, (i : ℚ))))⟩,
        [⟨0, "c0", "d", 1, "t0"⟩, ⟨1, "c1", "d", 1, "t1"⟩]⟩
      ⟨false, false, false, false, 0⟩ 7 [1] 5 = .ok (rs, dir2) ∧
      rs.length ≤ min 5 2 ∧ rs.length ≤ 2 :=
  search_shard_caps_neighbours
    ⟨true, true, true, true,
      ⟨2, fun _ k => .ok ((List.range k).map (fun i => (i, (i : ℚ))))⟩,
      [⟨0, "c0", "d", 1, "t0"⟩, ⟨1, "c1", "d", 1, "t1"⟩]⟩
    ⟨false, false, false, false, 0⟩ 7 [1] 5 rfl rfl
    (fun k _ => ⟨(List.range k).map (fun i => (i, (i : ℚ))), rfl, by simp⟩)

/-! ## Claim C7: cache fetch condition -/

/-- C7 counterexample: the code checks only `index.bin` and `ids.json`
before deciding to fetch.  With those two present locally but
`vectors.npy` and `meta.json` absent — and all four available durably — a
shard request performs no fetch: `vectors.npy` is still absent afterwards,
although the claim requires all four to be fetched when any is missing. -/
theorem shard_fetch_two_file_check_cex :
    ∃ rs dir2, searchShardDir
      ⟨true, true, true, true, ⟨0, fun _ _ => .ok []⟩, []⟩
      ⟨true, true, false, false, 3⟩ 7 [1] 5 = .ok (rs, dir2) ∧
      dir2.has_vectors = false ∧ dir2.has_meta = false := by
  exact ⟨[], ⟨true, true, false, false, 7⟩, rfl, rfl, rfl⟩

/-- C7 amended: on a shard request, if `index.bin` or `ids.json` is missing
locally, all four artifacts are fetched (each file that exists durably
becomes present); if both `index.bin` and `ids.json` are present locally,
no fetch occurs — even when `vectors.npy` or `meta.json` is missing. -/
theorem shard_fetch_amended (blob : ShardBlob) (dir : LocalShardDir)
    (clock : ℚ) (q : List ℚ) (top_n : Nat) :
    (dir.has_index = true → dir.has_ids = true →
      ∀ rs dir2, searchShardDir blob dir clock q top_n = .ok (rs, dir2) →
        dir2.has_index = dir.has_index ∧ dir2.has_ids = dir.has_ids ∧
        dir2.has_vectors = dir.has_vectors ∧ dir2.has_meta = dir.has_meta) ∧
    (¬(dir.has_index = true ∧ dir.has_ids = true) →
      ∀ rs dir2, searchShardDir blob dir clock q top_n = .ok (rs, dir2) →
        dir2.has_index = (blob.has_index || dir.has_index) ∧
        dir2.has_ids = (blob.has_ids || dir.has_ids) ∧
        dir2.has_vectors = (blob.has_vectors || dir.has_vectors) ∧
        dir2.has_meta = (blob.has_meta || dir.has_meta)) := by
  constructor
  · intro h1 h2 rs dir2 hok
    simp only [searchShardDir, h1, h2, Bool.and_self, Bool.not_true,
      Bool.false_eq_true, if_false, Bool.not_false, if_true] at hok
    rcases hk : blob.index.knn q (min top_n blob.index.count) with e | pairs <;>
      rw [hk] at hok <;> dsimp only at hok
    · exact absurd hok (by simp)
    · rw [Except.ok.injEq, Prod.mk.injEq] at hok
      rw [← hok.2]
      exact ⟨h1.symm, h2.symm, rfl, rfl⟩
  · intro hmiss rs dir2 hok
    have hb : (dir.has_index && dir.has_ids) = false := by
      cases hdi : dir.has_index <;> cases hdd : dir.has_ids <;> simp_all
    simp only [searchShardDir, hb, Bool.not_false, if_true,
      download_shard_artifacts] at hok
    by_cases hidx : (blob.has_index || dir.has_index) = true
    · simp only [hidx, Bool.not_true, Bool.false_eq_true, if_false] at hok
      by_cases hids : (blob.has_ids || dir.has_ids) = true
      · simp only [hids, Bool.not_true, Bool.false_eq_true, if_false] at hok
        rcases hk : blob.index.knn q (min top_n blob.index.count) with e | pairs <;>
          rw [hk] at hok <;> dsimp only at hok
        · exact absurd hok (by simp)
        · rw [Except.ok.injEq, Prod.mk.injEq] at hok
          rw [← hok.2]
          exact ⟨hidx.symm, hids.symm, rfl, rfl⟩
      · rw [Bool.not_eq_true] at hids
        simp only [hids, Bool.not_false, if_true] at hok
        exact absurd hok (by simp)
    · rw [Bool.not_eq_true] at hidx
      simp only [hidx, Bool.not_false, if_true] at hok
      rw [Except.ok.injEq, Prod.mk.injEq] at hok
      rw [← hok.2]
      exact ⟨hidx.symm, rfl, rfl, rfl⟩

/-- Witness for the amended C7, both branches at concrete states: a fully
present local directory is untouched, a directory missing `ids.json` gets
all four artifacts fetched from a fully present durable shard. -/
theorem shard_fetch_amended_witness :
    (∀ rs dir2, searchShardDir
        ⟨true, true, true, true, ⟨0, fun _ _ => .ok []⟩, []⟩
        ⟨true, true, true, true, 3⟩ 7 [1] 5 = .ok (rs, dir2) →
        dir2.has_index = true ∧ dir2.has_ids = true ∧
        dir2.has_vectors = true ∧ dir2.has_meta = true) ∧
    (∀ rs dir2, searchShardDir
        ⟨true, true, true, true, ⟨0, fun _ _ => .ok []⟩, []⟩
        ⟨true, false, false, false, 3⟩ 7 [1] 5 = .ok (rs, dir2) →
        dir2.has_index = true ∧ dir2.has_ids = true ∧
        dir2.has_vectors = true ∧ dir2.has_meta = true) := by
  constructor
  · intro rs dir2 hok
    exact (shard_fetch_amended
      ⟨true, true, true, true, ⟨0, fun _ _ => .ok []⟩, []⟩
      ⟨true, true, true, true, 3⟩ 7 [1] 5).1 rfl rfl rs dir2 hok
  · intro rs dir2 hok
    exact (shard_fetch_amended
      ⟨true, true, true, true, ⟨0, fun _ _ => .ok []⟩, []⟩
      ⟨true, false, false, false, 3⟩ 7 [1] 5).2 (by simp) rs dir2 hok

/-! ## Claims C2 and C8: the query fan-out and merge -/

/-- The results one routed shard contributes to a query, as a function of
the *initial* cache state of that shard's directory (empty on error). -/
def shardOut (durable : Nat → ShardBlob) (clock : ℚ)
    (cache : Nat → LocalShardDir) (q : List ℚ) (top_n : Nat) (s : Nat) :
    List SearchResult :=
  ((searchShardDir (durable s) (cache s) clock q top_n).toOption.map
    Prod.fst).getD []

/-- When every routed shard's per-directory search succeeds on its initial
cache state and the route has no duplicates, the shard loop succeeds and
collects exactly the concatenation of the per-shard results in route
order. -/
theorem searchLoop_ok (durable : Nat → ShardBlob) (clock : ℚ) (q : List ℚ)
    (top_n : Nat) :
    ∀ (route : List Nat) (cache : Nat → LocalShardDir)
      (acc : List SearchResult), route.Nodup →
      (∀ s ∈ route, ∃ rd,
        searchShardDir (durable s) (cache s) clock q top_n = .ok rd) →
      ∃ cache2, searchLoop durable clock q top_n route cache acc =
        .ok (acc ++ (route.map (shardOut durable clock cache q top_n)).flatten,
          cache2) := by
  intro route
  induction route with
  | nil =>
    intro cache acc _ _
    exact ⟨cache, by simp [searchLoop]⟩
  | cons s rest ih =>
    intro cache acc hnd hok
    obtain ⟨⟨rs, dirOut⟩, hs⟩ := hok s (List.mem_cons_self _ _)
    have hshard : search_shard durable clock cache s q top_n =
        .ok (rs, Function.update cache s dirOut) := by
      rw [search_shard, hs]
    have hrest : ∀ t ∈ rest, ∃ rd, searchShardDir (durable t)
        ((Function.update cache s dirOut) t) clock q top_n = .ok rd := by
      intro t ht
      have htne : t ≠ s := fun h => (List.nodup_cons.mp hnd).1 (h ▸ ht)
      rw [Function.update_noteq htne]
      exact hok t (List.mem_cons_of_mem _ ht)
    obtain ⟨cache2, hloop⟩ := ih (Function.update cache s dirOut) (acc ++ rs)
      (List.nodup_cons.mp hnd).2 hrest
    refine ⟨cache2, ?_⟩
    have hlist : acc ++ rs ++ (rest.map (shardOut durable clock
          (Function.update cache s dirOut) q top_n)).flatten =
        acc ++ ((s :: rest).map (shardOut durable clock cache q top_n)).flatten := by
      rw [List.map_cons, List.flatten_cons,
        show shardOut durable clock cache q top_n s = rs from by
          rw [shardOut, hs]; rfl,
        List.map_congr_left (fun t ht => by
          show shardOut durable clock (Function.update cache s dirOut) q top_n t
            = shardOut durable clock cache q top_n t
          have htne : t ≠ s := fun h => (List.nodup_cons.mp hnd).1 (h ▸ ht)
          rw [shardOut, shardOut, Function.update_noteq htne]),
        List.append_assoc]
    rw [searchLoop, hshard]
    dsimp only
    rw [hloop, hlist]

/-- C2: when every routed shard search succeeds, the merged result of
`RetrievalEngine.search` is the concatenation of all per-shard results
sorted in descending score order and truncated to at most
`top_n_per_shard` results in total: its length is exactly
`min top_n_per_shard (total pooled results)`, it is sorted descending, and
it is a sub-permutation of the pool. -/
theorem search_merge_cap (durable : Nat → ShardBlob) (clock : ℚ)
    (cache : Nat → LocalShardDir) (centroids : List (List ℚ)) (q : List ℚ)
    (k_shards top_n : Nat)
    (hok : ∀ s ∈ find_nearest_shards centroids q k_shards, ∃ rd,
      searchShardDir (durable s) (cache s) clock q top_n = .ok rd) :
    ∃ res cache2,
      search durable clock cache centroids q k_shards top_n =
        .ok (res, cache2) ∧
      res = (sortByScoreDesc ((find_nearest_shards centroids q k_shards).map
        (shardOut durable clock cache q top_n)).flatten).take top_n ∧
      res.length = min top_n
        ((find_nearest_shards centroids q k_shards).map
          (shardOut durable clock cache q top_n)).flatten.length ∧
      List.Pairwise scoreGe res ∧
      List.Subperm res ((find_nearest_shards centroids q k_shards).map
        (shardOut durable clock cache q top_n)).flatten := by
  have hnd := find_nearest_shards_nodup centroids q k_shards
  obtain ⟨cache2, hloop⟩ := searchLoop_ok durable clock q top_n
    (find_nearest_shards centroids q k_shards) cache [] hnd hok
  rw [List.nil_append] at hloop
  refine ⟨(sortByScoreDesc ((find_nearest_shards centroids q k_shards).map
    (shardOut durable clock cache q top_n)).flatten).take top_n, cache2,
    ?_, rfl, ?_, ?_, ?_⟩
  · simp only [search]
    rw [hloop]
  · rw [List.length_take, sortByScoreDesc,
      (List.perm_insertionSort scoreGe _).length_eq]
  · exact List.Pairwise.sublist (List.take_sublist _ _)
      (List.sorted_insertionSort scoreGe _)
  · exact ((List.take_sublist _ _).subperm).trans
      (List.perm_insertionSort scoreGe _).subperm

/-- A shard whose `index.bin` exists neither locally nor durably yields no
results and no error: the fetch attempt leaves `index.bin` absent and the
code returns an empty list for that shard. -/
theorem searchShardDir_no_index (blob : ShardBlob) (dir : LocalShardDir)
    (clock : ℚ) (q : List ℚ) (top_n : Nat)
    (h1 : blob.has_index = false) (h2 : dir.has_index = false) :
    searchShardDir blob dir clock q top_n =
      .ok ([], download_shard_artifacts blob dir) := by
  simp [searchShardDir, download_shard_artifacts, h1, h2]

/-- Skipping route entries that contribute nothing leaves the pooled
results unchanged. -/
theorem flatten_map_filter {α β : Type} (f : α → List β) (p : α → Bool)
    (l : List α) (h : ∀ x ∈ l, p x = false → f x = []) :
    (l.map f).flatten = ((l.filter p).map f).flatten := by
  induction l with
  | nil => rfl
  | cons a as ih =>
    rw [List.map_cons, List.flatten_cons, List.filter_cons]
    by_cases hp : p a = true
    · rw [if_pos hp, List.map_cons, List.flatten_cons,
        ih (fun x hx => h x (List.mem_cons_of_mem _ hx))]
    · rw [if_neg hp, h a (List.mem_cons_self _ _) (Bool.not_eq_true _ ▸ hp),
        List.nil_append, ih (fun x hx => h x (List.mem_cons_of_mem _ hx))]

/-- C8: if a routed shard's `index.bin` is absent both locally and durably
while every other routed shard's search succeeds, the query completes
without error, the missing shard contributes zero results, and the merged
output is built from the other routed shards only. -/
theorem search_missing_shard (durable : Nat → ShardBlob) (clock : ℚ)
    (cache : Nat → LocalShardDir) (centroids : List (List ℚ)) (q : List ℚ)
    (k_shards top_n S : Nat)
    (_hmem : S ∈ find_nearest_shards centroids q k_shards)
    (hSd : (durable S).has_index = false)
    (hSl : (cache S).has_index = false)
    (hok : ∀ s ∈ find_nearest_shards centroids q k_shards, s ≠ S → ∃ rd,
      searchShardDir (durable s) (cache s) clock q top_n = .ok rd) :
    ∃ res cache2,
      search durable clock cache centroids q k_shards top_n =
        .ok (res, cache2) ∧
      shardOut durable clock cache q top_n S = [] ∧
      res = (sortByScoreDesc
        (((find_nearest_shards centroids q k_shards).filter (fun s => s ≠ S)).map
          (shardOut durable clock cache q top_n)).flatten).take top_n := by
  have hSshard := searchShardDir_no_index (durable S) (cache S) clock q top_n
    hSd hSl
  have hSout : shardOut durable clock cache q top_n S = [] := by
    rw [shardOut, hSshard]; rfl
  have hokAll : ∀ s ∈ find_nearest_shards centroids q k_shards, ∃ rd,
      searchShardDir (durable s) (cache s) clock q top_n = .ok rd := by
    intro s hs
    by_cases heq : s = S
    · exact ⟨_, heq ▸ hSshard⟩
    · exact hok s hs heq
  obtain ⟨res, cache2, hsearch, hres, -, -, -⟩ := search_merge_cap durable
    clock cache centroids q k_shards top_n hokAll
  refine ⟨res, cache2, hsearch, hSout, ?_⟩
  rw [hres]
  rw [flatten_map_filter (shardOut durable clock cache q top_n)
    (fun s => s ≠ S) (find_nearest_shards centroids q k_shards)
    (fun x _ hx => by
      have hxS : x = S := by simpa using hx
      rw [hxS]
      exact hSout)]

/-- Witness for C2: three centroids, `k_shards = 3`, `top_n_per_shard = 5`,
each routed shard contributing 5 distinct matches — the merged output
length is exactly 5, not 15. -/
theorem search_merge_cap_witness :
    ∃ res cache2, search
      (fun _ => ⟨true, true, true, true,
        ⟨5, fun _ k => .ok ((List.range k).map (fun i => (i, (i : ℚ))))⟩,
        (List.range 5).map (fun l => ⟨l, "c", "d", 1, "t"⟩)⟩)
      7 (fun _ => ⟨false, false, false, false, 0⟩)
      [[0], [1], [2]] [0] 3 5 = .ok (res, cache2) ∧
      res.length = 5 := by
  obtain ⟨res, c2, hsearch, -, hlen, -, -⟩ := search_merge_cap
    (fun _ => ⟨true, true, true, true,
      ⟨5, fun _ k => .ok ((List.range k).map (fun i => (i, (i : ℚ))))⟩,
      (List.range 5).map (fun l => ⟨l, "c", "d", 1, "t"⟩)⟩)
    7 (fun _ => ⟨false, false, false, false, 0⟩)
    [[0], [1], [2]] [0] 3 5 (fun s _ => ⟨_, rfl⟩)
  refine ⟨res, c2, hsearch, ?_⟩
  have hroute : find_nearest_shards [[0], [1], [2]] [0] 3 = [0, 1, 2] := by
    norm_num [find_nearest_shards, find_nearest_shardsWith, argsortQ, sqDist, distLex,
      List.insertionSort, List.orderedInsert, List.range_succ]
  rw [hlen, hroute]
  rfl

/-- Witness for C8: two centroids, shard 1 has no `index.bin` locally or
durably; the query over both shards completes without error and shard 1
contributes zero results. -/
theorem search_missing_shard_witness :
    ∃ res cache2, search
      (fun s => if s = 0 then
          ⟨true, true, true, true,
            ⟨1, fun _ k => .ok ((List.range k).map (fun i => (i, (i : ℚ))))⟩,
            [⟨0, "c0", "d", 1, "t"⟩]⟩
        else ⟨false, true, true, true, ⟨0, fun _ _ => .ok []⟩, []⟩)
      7 (fun _ => ⟨false, false, false, false, 0⟩)
      [[0], [1]] [0] 2 5 = .ok (res, cache2) ∧
      shardOut
        (fun s => if s = 0 then
            ⟨true, true, true, true,
              ⟨1, fun _ k => .ok ((List.range k).map (fun i => (i, (i : ℚ))))⟩,
              [⟨0, "c0", "d", 1, "t"⟩]⟩
          else ⟨false, true, true, true, ⟨0, fun _ _ => .ok []⟩, []⟩)
        7 (fun _ => ⟨false, false, false, false, 0⟩) [0] 5 1 = [] := by
  obtain ⟨res, c2, hsearch, hout, -⟩ := search_missing_shard
    (fun s => if s = 0 then
        ⟨true, true, true, true,
          ⟨1, fun _ k => .ok ((List.range k).map (fun i => (i, (i : ℚ))))⟩,
          [⟨0, "c0", "d", 1, "t"⟩]⟩
      else ⟨false, true, true, true, ⟨0, fun _ _ => .ok []⟩, []⟩)
    7 (fun _ => ⟨false, false, false, false, 0⟩)
    [[0], [1]] [0] 2 5 1
    (by rw [show find_nearest_shards [[0], [1]] [0] 2 = [0, 1] from by
        norm_num [find_nearest_shards, find_nearest_shardsWith, argsortQ, sqDist, distLex,
          List.insertionSort, List.orderedInsert, List.range_succ]]
        simp) rfl rfl
    (fun s hs hne => by
      have hs01 : s = 0 ∨ s = 1 := by
        rw [show find_nearest_shards [[0], [1]] [0] 2 = [0, 1] from by
          norm_num [find_nearest_shards, find_nearest_shardsWith, argsortQ, sqDist, distLex,
            List.insertionSort, List.orderedInsert, List.range_succ]] at hs
        simpa using hs
      rcases hs01 with rfl | rfl
      · exact ⟨_, rfl⟩
      · exact absurd rfl hne)
  exact ⟨res, c2, hsearch, hout⟩
